import Mathlib

/-!
Verification of the project-management agent (agent_projet.py) and the
Telegram relay bot (go.py) against their natural-language specification.
The Python code is shallowly embedded: rows and records become Lean
structures and lists, Python strings become Lean strings manipulated at
the level of their character lists, and every operation is a computable
Lean function translated from the source.
-/

namespace Agentia

/-! ## Python string primitives

Python string operations used by the source, modelled over the character
list of a Lean string.  Lowercasing is modelled per character; slicing,
splitting and stripping follow the Python semantics on code points. -/

/-- Boolean test that the first list is a prefix of the second
(the beginning of a Python substring search). -/
def startsWith : List Char → List Char → Bool
  | [], _ => true
  | _ :: _, [] => false
  | a :: n, b :: h => a == b && startsWith n h

/-- Boolean substring test on character lists: Python needle in hay. -/
def containsSeq (n : List Char) : List Char → Bool
  | [] => n.isEmpty
  | c :: t => startsWith n (c :: t) || containsSeq n t

/-- Python needle in hay for strings. -/
def containsSub (hay needle : String) : Bool :=
  containsSeq needle.data hay.data

/-- Python str.lower, modelled per character. -/
def lowerStr (s : String) : String :=
  ⟨s.data.map Char.toLower⟩

/-- Python str.strip: remove leading and trailing whitespace. -/
def pyStrip (s : String) : String :=
  ⟨((s.data.dropWhile Char.isWhitespace).reverse.dropWhile Char.isWhitespace).reverse⟩

/-- Python slice s[:n] on code points. -/
def pyTake (s : String) (n : Nat) : String :=
  ⟨s.data.take n⟩

/-- Python split on a newline character: text.split with separator newline. -/
def splitOnNl : List Char → List (List Char)
  | [] => [[]]
  | c :: rest =>
    if c = '\n' then [] :: splitOnNl rest
    else
      match splitOnNl rest with
      | [] => [[c]]
      | l :: ls => (c :: l) :: ls

/-- The lines of a string, as Python text.split on a newline produces them. -/
def lignesDe (s : String) : List String :=
  (splitOnNl s.data).map fun cs => ⟨cs⟩

/-! ### Facts about the substring test -/

theorem startsWith_self_append (n suf : List Char) : startsWith n (n ++ suf) = true := by
  induction n with
  | nil => rfl
  | cons a n ih => simp [startsWith, ih]

theorem containsSeq_nil_needle (h : List Char) : containsSeq [] h = true := by
  cases h with
  | nil => rfl
  | cons c t => simp [containsSeq, startsWith]

theorem containsSeq_of_decomp (n pre suf : List Char) :
    containsSeq n (pre ++ n ++ suf) = true := by
  induction pre with
  | nil =>
    cases n with
    | nil => simpa using containsSeq_nil_needle suf
    | cons a m =>
      simp only [List.nil_append, containsSeq, List.cons_append]
      have := startsWith_self_append (a :: m) suf
      simp only [List.cons_append] at this
      simp [this]
  | cons c pre ih =>
    simp only [List.cons_append, containsSeq, Bool.or_eq_true]
    right
    simpa [List.append_assoc] using ih

theorem startsWith_decomp (n : List Char) :
    ∀ h : List Char, startsWith n h = true → ∃ suf, h = n ++ suf := by
  induction n with
  | nil => intro h _; exact ⟨h, rfl⟩
  | cons a n ih =>
    intro h hs
    cases h with
    | nil => simp [startsWith] at hs
    | cons b t =>
      simp only [startsWith, Bool.and_eq_true, beq_iff_eq] at hs
      obtain ⟨rfl, hs⟩ := hs
      obtain ⟨suf, rfl⟩ := ih t hs
      exact ⟨suf, rfl⟩

theorem containsSeq_decomp (n : List Char) :
    ∀ h : List Char, containsSeq n h = true → ∃ pre suf, h = pre ++ n ++ suf := by
  intro h
  induction h with
  | nil =>
    intro hc
    simp only [containsSeq, List.isEmpty_iff] at hc
    exact ⟨[], [], by simp [hc]⟩
  | cons c t ih =>
    intro hc
    simp only [containsSeq, Bool.or_eq_true] at hc
    cases hc with
    | inl hs =>
      obtain ⟨suf, hsuf⟩ := startsWith_decomp n (c :: t) hs
      exact ⟨[], suf, by simp [hsuf]⟩
    | inr hrec =>
      obtain ⟨pre, suf, hps⟩ := ih hrec
      exact ⟨c :: pre, suf, by simp [hps]⟩

/-! ### Facts about line splitting -/

theorem splitOnNl_ne_nil (cs : List Char) : splitOnNl cs ≠ [] := by
  cases cs with
  | nil => simp [splitOnNl]
  | cons c rest =>
    simp only [splitOnNl]
    split
    · simp
    · split <;> simp

theorem splitOnNl_headD (cs : List Char) :
    ∃ suf, cs = (splitOnNl cs).headD [] ++ suf := by
  induction cs with
  | nil => exact ⟨[], rfl⟩
  | cons c rest ih =>
    by_cases hc : c = '\n'
    · exact ⟨c :: rest, by simp [splitOnNl, hc]⟩
    · cases hsp : splitOnNl rest with
      | nil => exact absurd hsp (splitOnNl_ne_nil rest)
      | cons l0 ls =>
        obtain ⟨suf, hsuf⟩ := ih
        rw [hsp] at hsuf
        refine ⟨suf, ?_⟩
        simp only [splitOnNl, hc, if_false, hsp, List.headD_cons]
        simpa using hsuf

theorem splitOnNl_decomp (cs : List Char) :
    ∀ l ∈ splitOnNl cs, ∃ pre suf, cs = pre ++ l ++ suf := by
  induction cs with
  | nil =>
    intro l hl
    simp [splitOnNl] at hl
    exact ⟨[], [], by simp [hl]⟩
  | cons c rest ih =>
    intro l hl
    by_cases hc : c = '\n'
    · simp only [splitOnNl, hc, if_true, List.mem_cons] at hl
      cases hl with
      | inl h0 => exact ⟨[], c :: rest, by simp [h0]⟩
      | inr hmem =>
        obtain ⟨pre, suf, hps⟩ := ih l hmem
        exact ⟨c :: pre, suf, by simp [hps]⟩
    · cases hsp : splitOnNl rest with
      | nil => exact absurd hsp (splitOnNl_ne_nil rest)
      | cons l0 ls =>
        simp only [splitOnNl, hc, if_false, hsp, List.mem_cons] at hl
        cases hl with
        | inl hhead =>
          obtain ⟨suf, hsuf⟩ := splitOnNl_headD rest
          rw [hsp] at hsuf
          simp only [List.headD_cons] at hsuf
          exact ⟨[], suf, by simp [hhead, hsuf]⟩
        | inr hmem =>
          have hmem2 : l ∈ splitOnNl rest := by rw [hsp]; exact List.mem_cons_of_mem _ hmem
          obtain ⟨pre, suf, hps⟩ := ih l hmem2
          exact ⟨c :: pre, suf, by simp [hps]⟩

/-- If a line of the text contains the needle after lowercasing, then the
whole lowered text contains the needle. -/
theorem contains_of_line_contains (s l : String) (needle : String)
    (hl : l ∈ lignesDe s)
    (h : containsSub (lowerStr l) needle = true) :
    containsSub (lowerStr s) needle = true := by
  simp only [lignesDe, List.mem_map] at hl
  obtain ⟨lcs, hmem, rfl⟩ := hl
  simp only [containsSub, lowerStr] at h ⊢
  obtain ⟨p2, s2, hdec⟩ := containsSeq_decomp needle.data (lcs.map Char.toLower) h
  obtain ⟨pre, suf, hcs⟩ := splitOnNl_decomp s.data lcs hmem
  have : s.data.map Char.toLower =
      (pre.map Char.toLower ++ p2) ++ needle.data ++ (s2 ++ suf.map Char.toLower) := by
    rw [hcs]
    simp [hdec, List.append_assoc]
  rw [this]
  exact containsSeq_of_decomp _ _ _

/-! ## Next-action extraction (AgentChefProjet.ajouter_projet, lines 379 to 386)

The source initializes the next action to a default, and only when the
lowered analysis text contains the word action does it scan the lines,
taking the first line that contains action (case-insensitively) and has
raw length greater than 10, stripped and truncated to 100 characters. -/

/-- Embedding of the next-action extraction in ajouter_projet. -/
def extraireProchaineAction (analysis : String) : String :=
  if containsSub (lowerStr analysis) ("action") then
    match (lignesDe analysis).find?
        (fun l => containsSub (lowerStr l) ("action") && decide (l.length > 10)) with
    | some line => pyTake (pyStrip line) 100
    | none => "Analyser les besoins"
  else "Analyser les besoins"

/-- The C2 claim reading of the extraction: the first line containing the
substring action case-insensitively, truncated to 100 characters, with a
literal default when no line matches.  Stated from the claim words, to be
compared against the code embedding. -/
def claimProchaineAction (analysis : String) : String :=
  match (lignesDe analysis).find? (fun l => containsSub (lowerStr l) ("action")) with
  | some line => pyTake line 100
  | none => "Analyser les besoins"

/-- The amended C2 reading: matching lines must in addition have length
greater than 10, and the chosen line is stripped of surrounding whitespace
before truncation. -/
def amendedProchaineAction (analysis : String) : String :=
  match (lignesDe analysis).find?
      (fun l => containsSub (lowerStr l) ("action") && decide (l.length > 10)) with
  | some line => pyTake (pyStrip line) 100
  | none => "Analyser les besoins"

/-- Claim C2, counterexample: on the text whose first line is short, the
code skips the short matching first line (its length is at most 10) and
returns the second matching line, while the claim as stated returns the
first matching line. -/
theorem extraction_action_counterexample :
    extraireProchaineAction "Action!\nFaire une action rapide" = "Faire une action rapide"
    ∧ claimProchaineAction "Action!\nFaire une action rapide" = "Action!" := by
  constructor <;> rfl

/-- Claim C2, amended: the next action is the first line that contains
the substring action case-insensitively AND has length greater than 10,
stripped of surrounding whitespace and truncated to 100 characters; when
no such line exists the literal default is used.  The outer guard of the
source (the whole text must contain the substring) is redundant, because
any matching line makes the whole text match. -/
theorem extraction_action_amended (analysis : String) :
    extraireProchaineAction analysis = amendedProchaineAction analysis := by
  unfold extraireProchaineAction amendedProchaineAction
  by_cases hg : containsSub (lowerStr analysis) ("action") = true
  · simp [hg]
  · have hnone : (lignesDe analysis).find?
        (fun l => containsSub (lowerStr l) ("action") && decide (l.length > 10)) = none := by
      rw [List.find?_eq_none]
      intro l hl
      simp only [Bool.and_eq_true, decide_eq_true_eq, not_and]
      intro hcl
      exact absurd (contains_of_line_contains analysis l ("action") hl hcl) hg
    simp [hg, hnone]

/-! ## Project records

View of one spreadsheet row as get_all_records returns it, restricted to
the fields the embedded operations read.  Numeric stagnation cells come
back from the sheet as numbers; the monitor ignores non-numeric cells, so
the stagnation field is modelled as an integer. -/

/-- A project record as read from the sheet. -/
structure Projet where
  nomProjet : String
  statut : String
  description : String
  notes : String
  joursStagnation : Int
deriving DecidableEq

/-! ## Periodic monitor (AgentChefProjet.start_monitoring, lines 640 to 663) -/

/-- The two terminal statuses excluded by the monitor. -/
def terminaux : List String := ["Terminé", "Annulé"]

/-- The alert text built for one stagnant project. -/
def stagnationLine (p : Projet) : String :=
  "⚠ " ++ p.nomProjet ++ " : " ++ toString p.joursStagnation ++ " jours sans mise à jour"

/-- The alert produced for one row of a sweep: none for terminal statuses,
and otherwise an alert exactly when the stagnation count exceeds 7, a
threshold the source hard-codes. -/
def alertLine (p : Projet) : Option String :=
  if !(terminaux.contains p.statut) then
    if p.joursStagnation > 7 then some (stagnationLine p) else none
  else none

/-- All alert lines of one sweep, in row order. -/
def monitorAlerts (ps : List Projet) : List String :=
  ps.filterMap alertLine

/-- The single warning logged by a sweep: nothing when no alert fired,
otherwise the alert lines joined by newlines under a fixed banner. -/
def monitorLog (ps : List Projet) : Option String :=
  let alerts := monitorAlerts ps
  if alerts.isEmpty then none
  else some ("🚨 Alertes détectées :\n" ++ String.intercalate ("\n") alerts)

/-- A row qualifies for an alert: non-terminal status and stagnation
strictly above 7. -/
def enAlerte (p : Projet) : Bool :=
  !(terminaux.contains p.statut) && decide (p.joursStagnation > 7)

/-- The C1 claim reading of a sweep: the threshold is the configured
stagnation value, not a constant.  Stated from the claim words, to be
compared against the code embedding. -/
def claimSweepAlerts (threshold : Int) (ps : List Projet) : List String :=
  (ps.filter
    (fun p => !(terminaux.contains p.statut) && decide (p.joursStagnation > threshold))).map
    stagnationLine

theorem alertLine_eq_ite (p : Projet) :
    alertLine p = if enAlerte p then some (stagnationLine p) else none := by
  unfold alertLine enAlerte
  cases h : terminaux.contains p.statut <;> by_cases hj : p.joursStagnation > 7 <;> simp [h, hj]

theorem filterMap_ite_eq_filter_map {α β : Type} (f : α → β) (p : α → Bool) (xs : List α) :
    xs.filterMap (fun x => if p x then some (f x) else none) = (xs.filter p).map f := by
  induction xs with
  | nil => rfl
  | cons x xs ih => cases h : p x <;> simp [List.filterMap_cons, List.filter_cons, h, ih]

/-- Project used in the C1 counterexample. -/
def projCourant : Projet :=
  { nomProjet := "Site web", statut := "En cours", description := "", notes := "",
    joursStagnation := 10 }

/-- Claim C1, counterexample: configure the stagnation threshold to 100.
A project in progress with 10 stagnation days does not exceed that
configured threshold, so the claim predicts no alert line, but the sweep
of the code alerts it anyway: the source compares against the literal 7
and never reads the configured monitoring thresholds. -/
theorem monitoring_threshold_counterexample :
    monitorAlerts [projCourant] = ["⚠ Site web : 10 jours sans mise à jour"]
    ∧ claimSweepAlerts 100 [projCourant] = [] := by
  constructor <;> rfl

/-- Claim C1, amended: with the threshold fixed at the hard-coded 7, every
sweep alerts exactly the non-terminal rows whose stagnation count exceeds
7, one line per such row carrying the project name and its day count;
terminal rows never yield a line; the lines are joined with newlines and
logged as one warning under a fixed banner, and no warning is logged when
no row qualifies. -/
theorem monitoring_stagnation_amended (ps : List Projet) :
    monitorAlerts ps = (ps.filter enAlerte).map stagnationLine
    ∧ (∀ p ∈ ps, terminaux.contains p.statut = true → alertLine p = none)
    ∧ (∀ p ∈ ps, enAlerte p = true →
        containsSub (stagnationLine p) p.nomProjet = true
        ∧ containsSub (stagnationLine p) (toString p.joursStagnation) = true)
    ∧ (monitorAlerts ps = [] → monitorLog ps = none)
    ∧ (monitorAlerts ps ≠ [] →
        monitorLog ps =
          some ("🚨 Alertes détectées :\n" ++ String.intercalate ("\n") (monitorAlerts ps))) := by
  refine ⟨?_, ?_, ?_, ?_, ?_⟩
  · have : monitorAlerts ps =
        ps.filterMap (fun p => if enAlerte p then some (stagnationLine p) else none) := by
      unfold monitorAlerts
      exact List.filterMap_congr (fun p _ => alertLine_eq_ite p)
    rw [this, filterMap_ite_eq_filter_map]
  · intro p _ hterm
    have hmem : p.statut ∈ terminaux := by simpa using hterm
    simp [alertLine, hmem]
  · intro p _ _
    constructor
    · show containsSeq p.nomProjet.data (stagnationLine p).data = true
      have hdec : (stagnationLine p).data =
          ("⚠ " : String).data ++ p.nomProjet.data ++
            (" : " ++ toString p.joursStagnation ++ " jours sans mise à jour" : String).data := by
        unfold stagnationLine
        simp [String.data_append, List.append_assoc]
      rw [hdec]
      exact containsSeq_of_decomp _ _ _
    · show containsSeq (toString p.joursStagnation).data (stagnationLine p).data = true
      have hdec : (stagnationLine p).data =
          ("⚠ " ++ p.nomProjet ++ " : " : String).data ++ (toString p.joursStagnation).data ++
            (" jours sans mise à jour" : String).data := by
        unfold stagnationLine
        simp [String.data_append, List.append_assoc]
      rw [hdec]
      exact containsSeq_of_decomp _ _ _
  · intro hnil
    unfold monitorLog
    simp [hnil]
  · intro hne
    unfold monitorLog
    simp [List.isEmpty_iff, hne]

/-- Projects used in the C1 witness. -/
def projAlpha : Projet :=
  { nomProjet := "Alpha", statut := "En cours", description := "", notes := "",
    joursStagnation := 9 }

/-- Terminal project used in the C1 witness. -/
def projFini : Projet :=
  { nomProjet := "Beta", statut := "Terminé", description := "", notes := "",
    joursStagnation := 30 }

/-- Witness for the amended C1 theorem at a concrete sweep: one stagnant
active project and one finished project with a large count produce exactly
one alert line and one logged warning. -/
theorem monitoring_stagnation_amended_witness :
    alertLine projFini = none
    ∧ monitorLog [projAlpha, projFini] =
        some "🚨 Alertes détectées :\n⚠ Alpha : 9 jours sans mise à jour" := by
  have h := monitoring_stagnation_amended [projAlpha, projFini]
  refine ⟨h.2.1 projFini (by decide) (by decide), ?_⟩
  have h5 := h.2.2.2.2 (by decide)
  rw [h5]
  rfl

/-! ## Project search (AgentChefProjet.rechercher_projet, lines 509 to 531) -/

/-- The match condition of the source: the lowered query occurs in the
lowered name, description or notes. -/
def matchesQuery (q : String) (p : Projet) : Bool :=
  containsSub (lowerStr p.nomProjet) (lowerStr q)
  || containsSub (lowerStr p.description) (lowerStr q)
  || containsSub (lowerStr p.notes) (lowerStr q)

/-- Embedding of rechercher_projet: the loop that appends every matching
project to the result list. -/
def rechercherProjet (q : String) : List Projet → List Projet
  | [] => []
  | p :: rest =>
    if matchesQuery q p then p :: rechercherProjet q rest
    else rechercherProjet q rest

/-- Claim C8: search keeps exactly the rows whose name, description or
notes contain the query case-insensitively, in row order with no limit,
and returns the empty list when no row matches. -/
theorem search_projects_spec (q : String) (ps : List Projet) :
    rechercherProjet q ps = ps.filter (matchesQuery q)
    ∧ ((∀ p ∈ ps, matchesQuery q p = false) → rechercherProjet q ps = []) := by
  have hfil : rechercherProjet q ps = ps.filter (matchesQuery q) := by
    induction ps with
    | nil => rfl
    | cons p rest ih =>
      cases h : matchesQuery q p <;> simp [rechercherProjet, List.filter_cons, h, ih]
  refine ⟨hfil, fun hnone => ?_⟩
  rw [hfil, List.filter_eq_nil_iff]
  intro p hp
  simp [hnone p hp]

/-- Project used in the C8 witness. -/
def projGamma : Projet :=
  { nomProjet := "Refonte", statut := "À faire", description := "Nouveau site", notes := "RAS",
    joursStagnation := 0 }

/-- Witness for C8 at a concrete query that matches no field. -/
theorem search_projects_spec_witness :
    rechercherProjet "zzz" [projGamma] = [] :=
  (search_projects_spec "zzz" [projGamma]).2 (by decide)

/-! ## Sheet header setup (AgentChefProjet.setup_sheet_headers, lines 231 to 246)

The raw sheet is a list of rows of cells.  Reading row 1 of an empty sheet
returns the empty list; clearing then inserting the header row leaves a
sheet whose only row is the canonical header. -/

/-- The canonical 12-column header list of the sheet. -/
def headersCanon : List String :=
  ["Nom_Projet", "Statut", "Priorité", "Description", "Prochaine_Action",
   "Deadline", "Date_Creation", "Dernière_MAJ", "Jours_Stagnation",
   "Alerte", "Progression_%", "Notes"]

/-- Embedding of setup_sheet_headers on the raw grid: if row 1 is missing
or differs from the canonical headers, clear the sheet and insert the
header row; otherwise leave the sheet alone. -/
def setupSheetHeaders (sheet : List (List String)) : List (List String) :=
  let existing := sheet.headD []
  if existing.isEmpty || existing != headersCanon then [headersCanon]
  else sheet

/-- Claim C3: a sheet whose first row differs in any way from the
canonical header list (or has no first row) is replaced by the single
canonical header row; a sheet whose first row equals the canonical list
is unchanged. -/
theorem setup_headers_spec (sheet : List (List String)) :
    (sheet.head? ≠ some headersCanon → setupSheetHeaders sheet = [headersCanon])
    ∧ (sheet.head? = some headersCanon → setupSheetHeaders sheet = sheet) := by
  cases sheet with
  | nil => exact ⟨fun _ => rfl, fun h => by simp at h⟩
  | cons r rest =>
    constructor
    · intro hne
      have hr : r ≠ headersCanon := by
        intro h; exact hne (by simp [h])
      simp [setupSheetHeaders, bne_iff_ne, hr]
    · intro heq
      have hr : r = headersCanon := by simpa using heq
      subst hr
      have h1 : headersCanon.isEmpty = false := rfl
      simp [setupSheetHeaders, h1]

/-- Witness for C3 at a concrete broken sheet: a sheet whose first row is
a one-cell row is rewritten to the canonical header row only. -/
theorem setup_headers_spec_witness :
    setupSheetHeaders [["X"], ["vieux", "rang"]] = [headersCanon] :=
  (setup_headers_spec [["X"], ["vieux", "rang"]]).1 (by decide)

/-! ## Project update (AgentChefProjet.mettre_a_jour_projet, lines 429 to 499)

The data rows of the sheet (everything below the header) are a list of
12-cell rows; the name of a row is its first cell.  The source scans the
records from row 2 and keeps the first row whose name matches, then
writes each recognized field by a fixed column mapping and always stamps
column 8 with the current date.  Data row index i here corresponds to
sheet row i + 2 of the source. -/

/-- A data row of the sheet: the cell strings in column order. -/
abbrev Row := List String

/-- Lookup in an association list keyed by strings, as a Python dict read. -/
def lookupAssoc {α : Type} (d : List (String × α)) (k : String) : Option α :=
  match d with
  | [] => none
  | (k1, v) :: rest => if k1 = k then some v else lookupAssoc rest k

/-- The column mapping of mettre_a_jour_projet (1-based sheet columns). -/
def colonnes : List (String × Nat) :=
  [("statut", 2), ("priorite", 3), ("description", 4), ("prochaine_action", 5),
   ("deadline", 6), ("notes", 12)]

/-- First data row whose name cell equals the wanted name (the scan over
enumerate(projects, 2) of the source, returned as a 0-based data index). -/
def chercheLigne (nom : String) : List Row → Option Nat
  | [] => none
  | r :: rest =>
    if r.headD "" = nom then some 0
    else (chercheLigne nom rest).map (· + 1)

/-- One update_cell call: write value v at data row i, 1-based column c. -/
def updateCell (rows : List Row) (i c : Nat) (v : String) : List Row :=
  rows.set i ((rows.getD i []).set (c - 1) v)

/-- Result of mettre_a_jour_projet: the sheet after the call plus the
status fields of the returned record. -/
structure MAJResult where
  sheet : List Row
  status : String
  error : Option String
deriving DecidableEq

/-- Embedding of mettre_a_jour_projet: locate the row by name, return a
not-found error without touching the sheet when absent, otherwise write
every recognized field of the update map and stamp column 8 with the
current date. -/
def mettreAJourProjet (rows : List Row) (nom : String)
    (kwargs : List (String × String)) (today : String) : MAJResult :=
  match chercheLigne nom rows with
  | none => ⟨rows, "error", some "Projet non trouvé"⟩
  | some i =>
    let rows1 := kwargs.foldl
      (fun acc fv =>
        match lookupAssoc colonnes (lowerStr fv.1) with
        | some c => updateCell acc i c fv.2
        | none => acc) rows
    ⟨updateCell rows1 i 8 today, "success", none⟩

theorem chercheLigne_none (nom : String) (rows : List Row)
    (h : ∀ r ∈ rows, r.headD "" ≠ nom) : chercheLigne nom rows = none := by
  induction rows with
  | nil => rfl
  | cons r rest ih =>
    have hr := h r (by simp)
    simp only [chercheLigne, hr, if_false]
    rw [ih (fun r hr => h r (by simp [hr]))]
    rfl

theorem chercheLigne_lt (nom : String) :
    ∀ (rows : List Row) (i : Nat), chercheLigne nom rows = some i → i < rows.length := by
  intro rows
  induction rows with
  | nil => intro i h; simp [chercheLigne] at h
  | cons r rest ih =>
    intro i h
    simp only [chercheLigne] at h
    split at h
    · cases h; simp
    · cases hrec : chercheLigne nom rest with
      | none => rw [hrec] at h; simp at h
      | some j =>
        rw [hrec] at h
        simp only [Option.map_some'] at h
        cases h
        have hlt := ih j hrec
        have hlen : (r :: rest).length = rest.length + 1 := rfl
        omega

/-- Claim C4: updating a project name that matches no row returns an
error record carrying the not-found message and leaves every cell of the
sheet unchanged. -/
theorem update_not_found (rows : List Row) (nom : String)
    (kwargs : List (String × String)) (today : String)
    (h : ∀ r ∈ rows, r.headD "" ≠ nom) :
    mettreAJourProjet rows nom kwargs today = ⟨rows, "error", some "Projet non trouvé"⟩ := by
  unfold mettreAJourProjet
  rw [chercheLigne_none nom rows h]

/-- Witness for C4 at a concrete sheet with one row of another name. -/
theorem update_not_found_witness :
    mettreAJourProjet [["Autre", "À faire"]] "Site web" [("statut", "En cours")] "2025-06-01"
      = ⟨[["Autre", "À faire"]], "error", some "Projet non trouvé"⟩ :=
  update_not_found [["Autre", "À faire"]] "Site web" [("statut", "En cours")] "2025-06-01"
    (by decide)

theorem getD_set_self {α : Type} (l : List α) (i : Nat) (a d : α) (h : i < l.length) :
    (l.set i a).getD i d = a := by
  induction l generalizing i with
  | nil => simp at h
  | cons x xs ih =>
    cases i with
    | zero => rfl
    | succ j =>
      simp only [List.set_cons_succ, List.getD_cons_succ]
      exact ih j (by simpa using h)

theorem getD_set_ne {α : Type} (l : List α) (i j : Nat) (a d : α) (h : i ≠ j) :
    (l.set i a).getD j d = l.getD j d := by
  induction l generalizing i j with
  | nil => simp [List.set_nil]
  | cons x xs ih =>
    cases i with
    | zero =>
      cases j with
      | zero => exact absurd rfl h
      | succ k => rfl
    | succ i1 =>
      cases j with
      | zero => rfl
      | succ k =>
        simp only [List.set_cons_succ, List.getD_cons_succ]
        exact ih i1 k (by omega)

/-- Claim C5: updating an existing project with only the statut field
writes exactly the status column (column 2, index 1) and the last-update
column (column 8, index 7, stamped with the current date) of the first
row matching the name, and leaves every other cell of that row and every
other row untouched. -/
theorem update_statut_frame (rows : List Row) (nom v today : String) (i : Nat)
    (hfind : chercheLigne nom rows = some i)
    (hlen : (rows.getD i []).length = 12) :
    (mettreAJourProjet rows nom [("statut", v)] today).status = "success"
    ∧ ((mettreAJourProjet rows nom [("statut", v)] today).sheet.getD i []).getD 1 "" = v
    ∧ ((mettreAJourProjet rows nom [("statut", v)] today).sheet.getD i []).getD 7 "" = today
    ∧ (∀ c, c ≠ 1 → c ≠ 7 →
        ((mettreAJourProjet rows nom [("statut", v)] today).sheet.getD i []).getD c ""
          = (rows.getD i []).getD c "")
    ∧ (∀ j, j ≠ i →
        (mettreAJourProjet rows nom [("statut", v)] today).sheet.getD j []
          = rows.getD j []) := by
  have hi : i < rows.length := chercheLigne_lt nom rows i hfind
  set R := rows.getD i [] with hR
  have hres : mettreAJourProjet rows nom [("statut", v)] today =
      ⟨(rows.set i (R.set 1 v)).set i (((rows.set i (R.set 1 v)).getD i []).set 7 today),
       "success", none⟩ := by
    unfold mettreAJourProjet
    rw [hfind]
    rfl
  have hinner : (rows.set i (R.set 1 v)).getD i [] = R.set 1 v :=
    getD_set_self rows i _ [] hi
  have hsheet : (mettreAJourProjet rows nom [("statut", v)] today).sheet =
      (rows.set i (R.set 1 v)).set i ((R.set 1 v).set 7 today) := by
    rw [hres, hinner]
  have hgetI : (mettreAJourProjet rows nom [("statut", v)] today).sheet.getD i []
      = (R.set 1 v).set 7 today := by
    rw [hsheet]
    exact getD_set_self _ i _ [] (by rw [List.length_set]; exact hi)
  refine ⟨by rw [hres], ?_, ?_, ?_, ?_⟩
  · rw [hgetI]
    rw [getD_set_ne _ 7 1 _ _ (by omega)]
    exact getD_set_self _ 1 _ _ (by rw [hlen]; omega)
  · rw [hgetI]
    exact getD_set_self _ 7 _ _ (by rw [List.length_set, hlen]; omega)
  · intro c hc1 hc7
    rw [hgetI]
    rw [getD_set_ne _ 7 c _ _ (fun h => hc7 h.symm)]
    exact getD_set_ne _ 1 c _ _ (fun h => hc1 h.symm)
  · intro j hj
    rw [hsheet]
    rw [getD_set_ne _ i j _ _ (fun h => hj h.symm)]
    exact getD_set_ne _ i j _ _ (fun h => hj h.symm)

/-- Concrete two-row sheet used by the C5 witness. -/
def rowsTemoin : List Row :=
  [["Site web", "À faire", "1", "Refonte", "Analyser les besoins", "2025-12-01",
    "2025-05-01", "2025-05-01", "0", "", "0", "RAS"],
   ["Autre", "En cours", "2", "Desc", "Act", "", "2025-05-02", "2025-05-02", "3", "", "10", ""]]

/-- Witness for C5 on the concrete sheet: the status and date cells of the
matched row change, a different cell of the row and the other row do not. -/
theorem update_statut_frame_witness :
    (mettreAJourProjet rowsTemoin "Site web" [("statut", "En cours")] "2025-06-01").status
        = "success"
    ∧ ((mettreAJourProjet rowsTemoin "Site web" [("statut", "En cours")] "2025-06-01").sheet.getD
        0 []).getD 1 "" = "En cours"
    ∧ ((mettreAJourProjet rowsTemoin "Site web" [("statut", "En cours")] "2025-06-01").sheet.getD
        0 []).getD 7 "" = "2025-06-01"
    ∧ ((mettreAJourProjet rowsTemoin "Site web" [("statut", "En cours")] "2025-06-01").sheet.getD
        0 []).getD 3 "" = (rowsTemoin.getD 0 []).getD 3 ""
    ∧ (mettreAJourProjet rowsTemoin "Site web" [("statut", "En cours")] "2025-06-01").sheet.getD
        1 [] = rowsTemoin.getD 1 [] := by
  have h := update_statut_frame rowsTemoin "Site web" "En cours" "2025-06-01" 0
    (by decide) (by decide)
  exact ⟨h.1, h.2.1, h.2.2.1, h.2.2.2.1 3 (by omega) (by omega), h.2.2.2.2 1 (by omega)⟩

/-! ## Configuration loader (AgentChefProjet._load_config, lines 67 to 97)

A parsed JSON object is an association list from keys to values; values
are strings, integers or nested objects.  The default record is seeded
from the process environment.  Reading an existing file shallow-merges
the parsed object over the defaults with dict.update; a missing file
makes the loader write the defaults to the path and return them. -/

/-- A JSON value as the configuration uses them. -/
inductive JVal where
  | s : String → JVal
  | n : Int → JVal
  | obj : List (String × JVal) → JVal

/-- A parsed JSON object. -/
abbrev JObj := List (String × JVal)

/-- Python dict read: value of the first binding of the key. -/
def dictGet (d : JObj) (k : String) : Option JVal :=
  match d with
  | [] => none
  | (k1, v) :: rest => if k1 = k then some v else dictGet rest k

/-- Python dict.update: every key of the second object overrides the
first, keys unknown to the first are appended. -/
def dictUpdate (d o : JObj) : JObj :=
  d.map (fun p =>
    match dictGet o p.1 with
    | some v => (p.1, v)
    | none => p)
  ++ o.filter (fun p => (dictGet d p.1).isNone)

/-- Python os.getenv with a default. -/
def getenv (env : String → Option String) (k d : String) : String :=
  (env k).getD d

/-- The hard-coded default configuration record, seeded from the
environment. -/
def defaultConfig (env : String → Option String) : JObj :=
  [("openrouter_api_key", .s (getenv env ("OPENROUTER_API_KEY") (""))),
   ("google_creds_path", .s (getenv env ("GOOGLE_CREDS_PATH") ("credentials.json"))),
   ("sheet_name", .s (getenv env ("SHEET_NAME") ("Gestion_Projets"))),
   ("email_config", .obj
     [("smtp_server", .s "smtp.gmail.com"),
      ("smtp_port", .n 587),
      ("email", .s (getenv env ("EMAIL_USER") (""))),
      ("password", .s (getenv env ("EMAIL_PASS") ("")))]),
   ("monitoring", .obj
     [("check_interval_hours", .n 24),
      ("stagnation_alert_days", .n 7),
      ("urgent_alert_days", .n 14)])]

/-- Result of _load_config: the returned record, and the record written
to the configuration path when the file was absent. -/
structure ConfigLoad where
  config : JObj
  written : Option JObj

/-- Embedding of _load_config: merge the parsed file over the defaults,
or return and persist the defaults when the file is missing. -/
def loadConfigFile (env : String → Option String) (file : Option JObj) : ConfigLoad :=
  match file with
  | some o => ⟨dictUpdate (defaultConfig env) o, none⟩
  | none => ⟨defaultConfig env, some (defaultConfig env)⟩

theorem dictGet_append (l1 l2 : JObj) (k : String) :
    dictGet (l1 ++ l2) k = (dictGet l1 k).or (dictGet l2 k) := by
  induction l1 with
  | nil => simp [dictGet]
  | cons p rest ih =>
    obtain ⟨k1, v⟩ := p
    by_cases h : k1 = k <;> simp [dictGet, h, ih]

theorem dictGet_override (d o : JObj) (k : String) :
    dictGet (d.map (fun p =>
      match dictGet o p.1 with
      | some v => (p.1, v)
      | none => p)) k =
    match dictGet d k with
    | none => none
    | some v => some ((dictGet o k).getD v) := by
  induction d with
  | nil => simp [dictGet]
  | cons p rest ih =>
    obtain ⟨k1, v1⟩ := p
    by_cases h : k1 = k
    · subst h
      cases ho : dictGet o k1 <;> simp [dictGet, ho]
    · cases ho : dictGet o k1 <;> simp [dictGet, h, ho, ih]

theorem dictGet_filter_isNone (d o : JObj) (k : String) :
    dictGet (o.filter (fun p => (dictGet d p.1).isNone)) k =
    if (dictGet d k).isNone then dictGet o k else none := by
  induction o with
  | nil => simp [dictGet]
  | cons p rest ih =>
    obtain ⟨k1, v1⟩ := p
    by_cases h : k1 = k
    · subst h
      cases hd : (dictGet d k1).isNone <;>
        simp [List.filter_cons, dictGet, hd, ih]
    · cases hd : (dictGet d k1).isNone <;>
        simp [List.filter_cons, dictGet, h, hd, ih]

theorem dictGet_dictUpdate (d o : JObj) (k : String) :
    dictGet (dictUpdate d o) k =
    match dictGet o k with
    | some v => some v
    | none => dictGet d k := by
  unfold dictUpdate
  rw [dictGet_append, dictGet_override, dictGet_filter_isNone]
  cases hd : dictGet d k <;> cases ho : dictGet o k <;> simp [hd, ho]

/-- Claim C6: loading a configuration from an existing override file
returns a record where every key present in the override carries the
override value and every key absent from the override carries the default
value; loading from a missing file writes the defaults to the path and
returns them. -/
theorem config_merge_spec (env : String → Option String) (o : JObj) (k : String) :
    ((∃ v, dictGet o k = some v) →
        dictGet (loadConfigFile env (some o)).config k = dictGet o k)
    ∧ (dictGet o k = none →
        dictGet (loadConfigFile env (some o)).config k = dictGet (defaultConfig env) k)
    ∧ (loadConfigFile env none).config = defaultConfig env
    ∧ (loadConfigFile env none).written = some (defaultConfig env) := by
  refine ⟨?_, ?_, rfl, rfl⟩
  · rintro ⟨v, hv⟩
    show dictGet (dictUpdate (defaultConfig env) o) k = dictGet o k
    rw [dictGet_dictUpdate, hv]
  · intro hnone
    show dictGet (dictUpdate (defaultConfig env) o) k = dictGet (defaultConfig env) k
    rw [dictGet_dictUpdate, hnone]

/-- Empty environment used by the C6 witness. -/
def envVide : String → Option String := fun _ => none

/-- Override file used by the C6 witness: it overrides the sheet name. -/
def fichierTemoin : JObj := [("sheet_name", .s "Mes_Projets")]

/-- Witness for C6 at a concrete override: the overridden key takes the
override value and an absent key keeps the default. -/
theorem config_merge_spec_witness :
    dictGet (loadConfigFile envVide (some fichierTemoin)).config "sheet_name"
        = some (JVal.s "Mes_Projets")
    ∧ dictGet (loadConfigFile envVide (some fichierTemoin)).config "google_creds_path"
        = some (JVal.s "credentials.json") := by
  constructor
  · exact ((config_merge_spec envVide fichierTemoin ("sheet_name")).1 ⟨_, rfl⟩).trans rfl
  · exact ((config_merge_spec envVide fichierTemoin ("google_creds_path")).2.1 rfl).trans rfl

/-! ## New project row (AgentChefProjet.ajouter_projet, lines 377 to 404)

The row appended for a new project mixes strings and numbers; the two
agent outputs feeding the row (analysis and summary) are inputs of the
embedding. -/

/-- A spreadsheet cell as append_row receives it. -/
inductive Cell where
  | s : String → Cell
  | n : Int → Cell
deriving DecidableEq

/-- Embedding of the row_data list built by ajouter_projet. -/
def ajouterRowData (nom description : String) (priorite : Int)
    (deadline notes analysis summary today : String) : List Cell :=
  [.s nom,
   .s "À faire",
   .n priorite,
   .s description,
   .s (extraireProchaineAction analysis),
   .s (if deadline ≠ "" then deadline else ""),
   .s today,
   .s today,
   .n 0,
   .s "",
   .n 0,
   .s (notes ++ "\n\nAnalyse IA : " ++ pyTake summary 200 ++ "...")]

/-- Claim C7: every appended row carries status À faire, the call date in
both the creation and last-update columns, zero stagnation days and zero
progression. -/
theorem add_project_defaults (nom description : String) (priorite : Int)
    (deadline notes analysis summary today : String) :
    (ajouterRowData nom description priorite deadline notes analysis summary today)[1]?
        = some (Cell.s "À faire")
    ∧ (ajouterRowData nom description priorite deadline notes analysis summary today)[6]?
        = some (Cell.s today)
    ∧ (ajouterRowData nom description priorite deadline notes analysis summary today)[7]?
        = some (Cell.s today)
    ∧ (ajouterRowData nom description priorite deadline notes analysis summary today)[8]?
        = some (Cell.n 0)
    ∧ (ajouterRowData nom description priorite deadline notes analysis summary today)[10]?
        = some (Cell.n 0) :=
  ⟨rfl, rfl, rfl, rfl, rfl⟩

/-- Claim C10: the notes cell of an appended row is the caller notes
followed by the marker and the first 200 characters of the writer-agent
summary with a trailing ellipsis, and is therefore never the caller notes
verbatim. -/
theorem notes_augmented (nom description : String) (priorite : Int)
    (deadline notes analysis summary today : String) :
    (ajouterRowData nom description priorite deadline notes analysis summary today)[11]?
        = some (Cell.s (notes ++ "\n\nAnalyse IA : " ++ pyTake summary 200 ++ "..."))
    ∧ notes ++ "\n\nAnalyse IA : " ++ pyTake summary 200 ++ "..." ≠ notes := by
  refine ⟨rfl, fun hcontra => ?_⟩
  have hlen := congrArg String.length hcontra
  have h15 : ("\n\nAnalyse IA : " : String).length = 15 := rfl
  have h3 : ("..." : String).length = 3 := rfl
  simp only [String.length_append, h15, h3] at hlen
  omega

/-! ## Telegram reply chunking (go.py handle_message, lines 53 to 75)

The bot sends the agent reply in consecutive slices of 4000 characters:
the Python loop over range(0, len(contenu), 4000). -/

/-- The chunking loop on the character list of the reply. -/
def chunkReply (l : List Char) : List (List Char) :=
  if h : l = [] then []
  else l.take 4000 :: chunkReply (l.drop 4000)
termination_by l.length
decreasing_by
  have hpos : 0 < l.length := List.length_pos.mpr h
  rw [List.length_drop]
  omega

/-- The messages sent for one reply, in sending order. -/
def sendChunks (contenu : String) : List String :=
  (chunkReply contenu.data).map fun cs => ⟨cs⟩

theorem chunkReply_flatten (l : List Char) : (chunkReply l).flatten = l := by
  induction l using chunkReply.induct with
  | case1 => rw [chunkReply]; simp
  | case2 l h ih =>
    rw [chunkReply, dif_neg h, List.flatten_cons, ih, List.take_append_drop]

theorem chunkReply_short (l : List Char) : ∀ c ∈ chunkReply l, c.length ≤ 4000 := by
  induction l using chunkReply.induct with
  | case1 => rw [chunkReply]; simp
  | case2 l h ih =>
    rw [chunkReply, dif_neg h]
    simp only [List.mem_cons]
    rintro c (rfl | hc)
    · exact List.length_take_le 4000 l
    · exact ih c hc

theorem strJoin_mk (cs : List (List Char)) (acc : String) :
    List.foldl (fun r s => r ++ s) acc (cs.map fun x => (⟨x⟩ : String)) =
      ⟨acc.data ++ cs.flatten⟩ := by
  induction cs generalizing acc with
  | nil =>
    simp only [List.map_nil, List.foldl_nil, List.flatten_nil, List.append_nil]
  | cons c rest ih =>
    simp only [List.map_cons, List.foldl_cons, List.flatten_cons]
    rw [ih]
    have hdata : (acc ++ (⟨c⟩ : String)).data = acc.data ++ c := String.data_append acc ⟨c⟩
    rw [hdata, List.append_assoc]

/-- Claim C9: the reply is sent as consecutive chunks of at most 4000
characters, in order, whose concatenation is the original reply text. -/
theorem chunk_reply_spec (contenu : String) :
    ((sendChunks contenu).all fun m => decide (m.length ≤ 4000)) = true
    ∧ String.join (sendChunks contenu) = contenu := by
  constructor
  · rw [List.all_eq_true]
    intro m hm
    simp only [sendChunks, List.mem_map] at hm
    obtain ⟨cs, hcs, rfl⟩ := hm
    simpa using chunkReply_short contenu.data cs hcs
  · show List.foldl (fun r s => r ++ s) "" _ = contenu
    rw [sendChunks, strJoin_mk, chunkReply_flatten]
    cases contenu
    rfl

end Agentia
